import Mathlib

/-!
Shallow embedding of the layout core of `src/services/pdfService.js`
(class `PDFService`): content metrics, density classification, page-break
computation (`calculateDynamicScaling`), math-span processing
(`processLatexForHTML`) and document assembly (`generateHTML`).

JS numbers are modelled as exact rationals (`ℚ`) where fractional
arithmetic occurs, naturals/integers elsewhere; a JS `TypeError` raised by
a property access on `undefined` is modelled with `Except String`; the
external KaTeX collaborator is an oracle parameter returning
`Except String` per span.
-/

namespace PdfService

/-- The `options` object of an extracted MCQ: each label A–E is optionally
present (`mcq.options.X` is `undefined` in JS when absent). -/
structure MCQOptions where
  A : Option String := none
  B : Option String := none
  C : Option String := none
  D : Option String := none
  E : Option String := none
deriving DecidableEq, Repr

/-- One extracted MCQ as consumed by `generateHTML`. `question = none`
models a missing/null `question` field on the JS object. -/
structure MCQ where
  question : Option String
  options : MCQOptions
deriving DecidableEq, Repr

/-- Evaluation of `o?.length || 0` on an optional string field. -/
def optLen (o : Option String) : ℕ := (o.map String.length).getD 0

/-- One step of the `reduce` at pdfService.js lines 113–119: accumulates
`mcq.question.length + (options.A?.length || 0) + ... + (options.D?.length || 0)`.
Accessing `.length` on a missing `question` raises a `TypeError`, which
aborts the whole computation. Label `E` is never read. -/
def charStep (sum : ℕ) (m : MCQ) : Except String ℕ :=
  match m.question with
  | none => .error "TypeError: Cannot read properties of undefined (reading length)"
  | some q => .ok (sum + q.length + optLen m.options.A + optLen m.options.B +
      optLen m.options.C + optLen m.options.D)

/-- The whole `reduce` (initial accumulator 0). -/
def totalCharsOf (mcqs : List MCQ) : Except String ℕ :=
  mcqs.foldlM charStep 0

/-- The four `layoutMode` strings of `calculateDynamicScaling`. -/
inductive LayoutMode
  | sparse
  | normal
  | compact
  | ultraCompact
deriving DecidableEq, Repr

/-- Position of a layout mode in the density order
sparse < normal < compact < ultra-compact. -/
def LayoutMode.densityIdx : LayoutMode → ℕ
  | .sparse => 0
  | .normal => 1
  | .compact => 2
  | .ultraCompact => 3

/-- The two `optionsLayout` strings (`'vertical'` = stacked two-column grid,
`'horizontal'` = inline flex flow). -/
inductive OptionsLayout
  | vertical
  | horizontal
deriving DecidableEq, Repr

/-- The record returned by `calculateDynamicScaling`
(pdfService.js lines 165–174). -/
structure Scaling where
  layoutMode : LayoutMode
  fontSize : ℚ
  lineHeight : ℚ
  spacing : ℚ
  optionsLayout : OptionsLayout
  breakIndices : List ℤ
  totalMcqs : ℕ
  pageCount : ℕ
deriving DecidableEq, Repr

/-- The loop at pdfService.js lines 160–163:
`for (i = 1; i < pageCount; i++) push(Math.floor(totalMcqs*i/pageCount) - 1)`.
No clamping and no de-duplication is performed. -/
def breakIndicesOf (totalMcqs pageCount : ℕ) : List ℤ :=
  (List.range (pageCount - 1)).map
    (fun k => ((totalMcqs * (k + 1) / pageCount : ℕ) : ℤ) - 1)

/-- The branch structure of `calculateDynamicScaling` (lines 124–174) as a
pure function of `totalMcqs`, `totalChars` and `pageCount`.
`avgCharsPerMcq > 50` in the compact branch is written as
`50 * totalMcqs < totalChars` (the branch guard forces `totalMcqs > 0`,
so the two are equivalent over exact arithmetic). -/
def scalingOf (totalMcqs totalChars pageCount : ℕ) : Scaling :=
  let densityFactor : ℚ := max (1 / 2) (1 - ((pageCount : ℚ) - 2) * (1 / 10))
  let bi := breakIndicesOf totalMcqs pageCount
  if totalMcqs ≤ 15 * pageCount then
    { layoutMode := .sparse
      fontSize := min 15 (13 + ((pageCount : ℚ) - 2) * (1 / 2))
      lineHeight := 16 / 10
      spacing := max 8 (12 * densityFactor)
      optionsLayout := .vertical
      breakIndices := bi
      totalMcqs := totalMcqs
      pageCount := pageCount }
  else if totalMcqs ≤ 30 * pageCount then
    { layoutMode := .normal
      fontSize := min (27 / 2) (12 + ((pageCount : ℚ) - 2) * (1 / 2))
      lineHeight := 14 / 10
      spacing := max 5 (8 * densityFactor)
      optionsLayout := .vertical
      breakIndices := bi
      totalMcqs := totalMcqs
      pageCount := pageCount }
  else if totalMcqs ≤ 50 * pageCount then
    { layoutMode := .compact
      fontSize := min 12 (11 + ((pageCount : ℚ) - 2) * (1 / 2))
      lineHeight := 12 / 10
      spacing := max 3 (5 * densityFactor)
      optionsLayout := if 50 * totalMcqs < totalChars then .vertical else .horizontal
      breakIndices := bi
      totalMcqs := totalMcqs
      pageCount := pageCount }
  else
    { layoutMode := .ultraCompact
      fontSize := min (21 / 2) (10 + ((pageCount : ℚ) - 2) * (1 / 2))
      lineHeight := 11 / 10
      spacing := max 2 (3 * densityFactor)
      optionsLayout := .horizontal
      breakIndices := bi
      totalMcqs := totalMcqs
      pageCount := pageCount }

/-- Method `calculateDynamicScaling(mcqs, pageCount)`: the fallible
character reduce followed by the pure branch logic. -/
def calculateDynamicScaling (mcqs : List MCQ) (pageCount : ℕ) : Except String Scaling :=
  (totalCharsOf mcqs).map (fun tc => scalingOf mcqs.length tc pageCount)

/-- Boolean test that `pat` is an initial segment of `l`. -/
def startsWithSeq : List Char → List Char → Bool
  | [], _ => true
  | _ :: _, [] => false
  | a :: pat, b :: l => a = b && startsWithSeq pat l

theorem startsWithSeq_iff (pat : List Char) :
    ∀ l : List Char, startsWithSeq pat l = true ↔ ∃ t, l = pat ++ t := by
  induction pat with
  | nil => intro l; simp [startsWithSeq]
  | cons a pat ih =>
    intro l
    cases l with
    | nil => simp [startsWithSeq]
    | cons b bs =>
      simp only [startsWithSeq, Bool.and_eq_true, decide_eq_true_eq, ih bs,
        List.cons_append, List.cons.injEq]
      constructor
      · rintro ⟨rfl, t, rfl⟩; exact ⟨t, rfl, rfl⟩
      · rintro ⟨t, rfl, rfl⟩; exact ⟨rfl, t, rfl⟩

/-- Leftmost split of `l` around the first occurrence of the delimiter
sequence `pat`: returns the part before and the part after the first
occurrence (the lazy-quantifier semantics of the JS span patterns). -/
def splitOnSeq (pat : List Char) : List Char → Option (List Char × List Char)
  | [] => none
  | c :: rest =>
    if startsWithSeq pat (c :: rest) then some ([], (c :: rest).drop pat.length)
    else (splitOnSeq pat rest).map (fun p => (c :: p.1, p.2))

theorem splitOnSeq_eq (pat : List Char) :
    ∀ l b a, splitOnSeq pat l = some (b, a) → l = b ++ pat ++ a := by
  intro l
  induction l with
  | nil => intro b a h; simp [splitOnSeq] at h
  | cons c rest ih =>
    intro b a h
    rw [splitOnSeq] at h
    by_cases hs : startsWithSeq pat (c :: rest) = true
    · rw [if_pos hs] at h
      obtain ⟨t, ht⟩ := (startsWithSeq_iff pat (c :: rest)).1 hs
      simp only [Option.some.injEq, Prod.mk.injEq] at h
      obtain ⟨h1, h2⟩ := h
      subst h1; subst h2
      rw [ht, List.drop_left]
      simp [ht]
    · rw [if_neg hs] at h
      cases hsp : splitOnSeq pat rest with
      | none => rw [hsp] at h; simp at h
      | some p =>
        rw [hsp] at h
        simp only [Option.map_some', Option.some.injEq, Prod.mk.injEq] at h
        obtain ⟨h1, h2⟩ := h
        subst h1; subst h2
        have := ih p.1 p.2 (by rw [hsp])
        simp [this]

theorem splitOnSeq_after_length (pat : List Char) (hp : pat ≠ []) :
    ∀ l b a, splitOnSeq pat l = some (b, a) → a.length < l.length := by
  intro l b a h
  have he := splitOnSeq_eq pat l b a h
  have : 1 ≤ pat.length := by
    cases pat with
    | nil => exact absurd rfl hp
    | cons _ _ => simp
  rw [he]
  simp only [List.length_append]
  omega

/-- When the delimiter's first character does not occur in `b`, the first
occurrence of the delimiter in `b ++ pat ++ a` is exactly at the boundary. -/
theorem splitOnSeq_boundary (p0 : Char) (ps : List Char) :
    ∀ b a : List Char, p0 ∉ b →
      splitOnSeq (p0 :: ps) (b ++ (p0 :: ps) ++ a) = some (b, a) := by
  intro b
  induction b with
  | nil =>
    intro a _
    show splitOnSeq (p0 :: ps) (p0 :: (ps ++ a)) = some ([], a)
    rw [splitOnSeq]
    have hs : startsWithSeq (p0 :: ps) (p0 :: (ps ++ a)) = true :=
      (startsWithSeq_iff _ _).2 ⟨a, by simp⟩
    rw [if_pos hs]
    simp [List.drop_left]
  | cons c b ih =>
    intro a hc
    have hcp : p0 ≠ c := fun h => hc (by rw [h]; exact List.mem_cons_self c b)
    have hb : p0 ∉ b := fun h => hc (List.mem_cons_of_mem c h)
    show splitOnSeq (p0 :: ps) (c :: (b ++ (p0 :: ps) ++ a)) = some (c :: b, a)
    rw [splitOnSeq]
    have hns : startsWithSeq (p0 :: ps) (c :: (b ++ (p0 :: ps) ++ a)) = false := by
      simp [startsWithSeq, hcp]
    rw [hns]
    simp only [Bool.false_eq_true, if_false]
    rw [ih a hb]
    rfl

/-- Model of JS `String.prototype.trim`: drop leading and trailing
whitespace. -/
def jsTrim (l : List Char) : List Char :=
  ((l.dropWhile Char.isWhitespace).reverse.dropWhile Char.isWhitespace).reverse

/-- Effect of `question.replace` with the anchored pattern of
pdfService.js line 442 (optional whitespace, one or more digits, one
optional dot, optional whitespace): when the text begins with optional
whitespace followed by at least one digit the matched run is removed,
otherwise the pattern does not match and the text is unchanged. -/
def stripLeadingNumber (s : List Char) : List Char :=
  let s1 := s.dropWhile Char.isWhitespace
  if (s1.head?.map Char.isDigit).getD false then
    let s2 := s1.dropWhile Char.isDigit
    let s3 := if s2.head? = some '.' then s2.tail else s2
    s3.dropWhile Char.isWhitespace
  else s

/-- External KaTeX collaborator: `render latex displayMode` models
`katex.renderToString`, returning the rendered markup or reporting an
error for the span (the `catch` branches at lines 81–84 and 95–98 then
keep the original delimited match). -/
structure Katex where
  render : List Char → Bool → Except String (List Char)

/-- Replacement text for one matched span: the rendered output on success,
the original match (delimiters included) when the collaborator reports an
error. -/
def spanOut (k : Katex) (displayMode : Bool) (op body cl : List Char) : List Char :=
  match k.render (jsTrim body) displayMode with
  | .ok r => r
  | .error _ => op ++ body ++ cl

/-- Replacement text for a span captured by the FIRST alternative of a
pass's pattern (bracket-style display, paren-style inline). The callback
computes `const latex = latex1 || latex2`; when the captured body is the
empty string, `latex1` is falsy and `latex2` (the other, non-matching
group) is `undefined`, so `latex.trim()` raises a TypeError that the
`catch` turns into the original match, verbatim, without consulting
KaTeX. A nonempty body proceeds as usual. (For the second alternatives
this cannot happen: `undefined || body` is `body`, and for a
double-dollar span with empty body `undefined || ""` is `""`, which IS
handed to KaTeX.) -/
def spanOutFirstAlt (k : Katex) (displayMode : Bool) (op body cl : List Char) : List Char :=
  if body = [] then op ++ body ++ cl
  else spanOut k displayMode op body cl

/-- The display-math global replacement pass (lines 74–85), structurally
recursive on a step counter: at a position starting a bracket-style or
double-dollar display delimiter with a closing delimiter further on,
replace the lazily matched span and resume after it; otherwise emit the
character and move on. Every recursive call consumes at least one
character, so a counter equal to the text length never runs out (see
`scanDisplayF_mono`). -/
def scanDisplayF (k : Katex) : ℕ → List Char → List Char
  | 0, l => l
  | _ + 1, [] => []
  | fuel + 1, c :: rest =>
    if c = '\\' ∧ rest.head? = some '[' then
      match splitOnSeq ['\\', ']'] rest.tail with
      | some (body, after) =>
        spanOutFirstAlt k true ['\\', '['] body ['\\', ']'] ++ scanDisplayF k fuel after
      | none => c :: scanDisplayF k fuel rest
    else if c = '$' ∧ rest.head? = some '$' then
      match splitOnSeq ['$', '$'] rest.tail with
      | some (body, after) =>
        spanOut k true ['$', '$'] body ['$', '$'] ++ scanDisplayF k fuel after
      | none => c :: scanDisplayF k fuel rest
    else c :: scanDisplayF k fuel rest

/-- The display pass at its sufficient step count. -/
def scanDisplay (k : Katex) (l : List Char) : List Char :=
  scanDisplayF k l.length l

theorem scanDisplayF_mono (k : Katex) :
    ∀ fuel fuel2 : ℕ, ∀ l : List Char, l.length ≤ fuel → l.length ≤ fuel2 →
      scanDisplayF k fuel l = scanDisplayF k fuel2 l := by
  intro fuel
  induction fuel with
  | zero =>
    intro fuel2 l h1 _
    obtain rfl : l = [] := List.length_eq_zero.1 (Nat.le_zero.1 h1)
    cases fuel2 <;> rfl
  | succ fuel ih =>
    intro fuel2 l h1 h2
    cases l with
    | nil => cases fuel2 <;> rfl
    | cons c rest =>
      cases fuel2 with
      | zero => simp at h2
      | succ f2 =>
        have hr : rest.length ≤ fuel := by
          simp only [List.length_cons] at h1; omega
        have hr2 : rest.length ≤ f2 := by
          simp only [List.length_cons] at h2; omega
        have hrt : rest.tail.length ≤ rest.length := by cases rest <;> simp
        simp only [scanDisplayF]
        split_ifs with hA hB
        · cases hsp : splitOnSeq ['\\', ']'] rest.tail with
          | some p =>
            obtain ⟨body, after⟩ := p
            have hal : after.length < rest.tail.length :=
              splitOnSeq_after_length _ (by simp) _ _ _ hsp
            dsimp only
            rw [ih f2 after (by omega) (by omega)]
          | none => dsimp only; rw [ih f2 rest hr hr2]
        · cases hsp : splitOnSeq ['$', '$'] rest.tail with
          | some p =>
            obtain ⟨body, after⟩ := p
            have hal : after.length < rest.tail.length :=
              splitOnSeq_after_length _ (by simp) _ _ _ hsp
            dsimp only
            rw [ih f2 after (by omega) (by omega)]
          | none => dsimp only; rw [ih f2 rest hr hr2]
        · rw [ih f2 rest hr hr2]

/-- The inline-math global replacement pass (lines 88–99), structurally
recursive on a step counter: paren-style spans with lazy bodies, and
single-dollar spans whose body is nonempty and dollar-free. -/
def scanInlineF (k : Katex) : ℕ → List Char → List Char
  | 0, l => l
  | _ + 1, [] => []
  | fuel + 1, c :: rest =>
    if c = '\\' ∧ rest.head? = some '(' then
      match splitOnSeq ['\\', ')'] rest.tail with
      | some (body, after) =>
        spanOutFirstAlt k false ['\\', '('] body ['\\', ')'] ++ scanInlineF k fuel after
      | none => c :: scanInlineF k fuel rest
    else if c = '$' then
      match splitOnSeq ['$'] rest with
      | some (body, after) =>
        if body = [] then c :: scanInlineF k fuel rest
        else spanOut k false ['$'] body ['$'] ++ scanInlineF k fuel after
      | none => c :: scanInlineF k fuel rest
    else c :: scanInlineF k fuel rest

/-- The inline pass at its sufficient step count. -/
def scanInline (k : Katex) (l : List Char) : List Char :=
  scanInlineF k l.length l

theorem scanInlineF_mono (k : Katex) :
    ∀ fuel fuel2 : ℕ, ∀ l : List Char, l.length ≤ fuel → l.length ≤ fuel2 →
      scanInlineF k fuel l = scanInlineF k fuel2 l := by
  intro fuel
  induction fuel with
  | zero =>
    intro fuel2 l h1 _
    obtain rfl : l = [] := List.length_eq_zero.1 (Nat.le_zero.1 h1)
    cases fuel2 <;> rfl
  | succ fuel ih =>
    intro fuel2 l h1 h2
    cases l with
    | nil => cases fuel2 <;> rfl
    | cons c rest =>
      cases fuel2 with
      | zero => simp at h2
      | succ f2 =>
        have hr : rest.length ≤ fuel := by
          simp only [List.length_cons] at h1; omega
        have hr2 : rest.length ≤ f2 := by
          simp only [List.length_cons] at h2; omega
        have hrt : rest.tail.length ≤ rest.length := by cases rest <;> simp
        simp only [scanInlineF]
        split_ifs with hA hB
        · cases hsp : splitOnSeq ['\\', ')'] rest.tail with
          | some p =>
            obtain ⟨body, after⟩ := p
            have hal : after.length < rest.tail.length :=
              splitOnSeq_after_length _ (by simp) _ _ _ hsp
            dsimp only
            rw [ih f2 after (by omega) (by omega)]
          | none => dsimp only; rw [ih f2 rest hr hr2]
        · cases hsp : splitOnSeq ['$'] rest with
          | some p =>
            obtain ⟨body, after⟩ := p
            have hal : after.length < rest.length :=
              splitOnSeq_after_length _ (by simp) _ _ _ hsp
            dsimp only
            by_cases hbe : body = []
            · rw [if_pos hbe, if_pos hbe, ih f2 rest hr hr2]
            · rw [if_neg hbe, if_neg hbe, ih f2 after (by omega) (by omega)]
          | none => dsimp only; rw [ih f2 rest hr hr2]
        · rw [ih f2 rest hr hr2]

/-- Method `processLatexForHTML(text)` (lines 69–106): the display pass
followed by the inline pass. The JS guard `if (!text) return text` is the
identity on the empty string, which both scanners already satisfy. -/
def processLatexForHTML (k : Katex) (text : List Char) : List Char :=
  scanInline k (scanDisplay k text)

/-- The metadata fields read by `generateHTML` (subject, instructor,
maxMarks, minMarks and the `class` field, renamed `className` here because
`class` is a Lean keyword). They are interpolated verbatim into the header
block. -/
structure Metadata where
  subject : String
  instructor : String
  maxMarks : String
  minMarks : String
  className : String
deriving DecidableEq, Repr

/-- Lookup `mcq.options[key]` for a label character. -/
def getOpt (o : MCQOptions) (key : Char) : Option String :=
  if key = 'A' then o.A
  else if key = 'B' then o.B
  else if key = 'C' then o.C
  else if key = 'D' then o.D
  else if key = 'E' then o.E
  else none

/-- One emitted question `div` (lines 446–457): its printed number
`i + 1`, the processed question text, the option lines actually emitted by
the `['A','B','C','D'].forEach` loop, and whether the div carries the
`page-break` class. -/
structure QuestionBlock where
  number : ℕ
  text : List Char
  options : List (Char × List Char)
  pageBreak : Bool
deriving DecidableEq, Repr

/-- The literal footer message emitted at lines 461–464. -/
def endMessage : String := "*** END OF PAPER *** BEST OF LUCK!"

/-- The assembled document, recording what `generateHTML` emits: the
header block carrying the metadata verbatim, the ordered question blocks,
and the footer block. -/
structure HTMLDoc where
  header : Metadata
  questions : List QuestionBlock
  footer : String
deriving DecidableEq, Repr

/-- One iteration of the question loop (lines 440–457): reading
`mcq.question.replace` raises a `TypeError` when `question` is missing;
otherwise the leading-numeral prefix is stripped, the text and options are
processed for math spans, and the block is marked with the `page-break`
class iff its index is listed in `scaling.breakIndices`. The option loop
guards with JS truthiness — `if (mcq.options[key])` at line 452 — so a
missing option AND a present option whose value is the empty string are
both skipped; only labels A–D are iterated. -/
def buildQuestion (k : Katex) (scaling : Scaling) (i : ℕ) (m : MCQ) :
    Except String QuestionBlock :=
  match m.question with
  | none => .error "TypeError: Cannot read properties of undefined (reading replace)"
  | some q =>
    .ok { number := i + 1
          text := processLatexForHTML k (stripLeadingNumber q.data)
          options := ['A', 'B', 'C', 'D'].filterMap
            (fun key => match getOpt m.options key with
              | some v =>
                if v = "" then none
                else some (key, processLatexForHTML k v.data)
              | none => none)
          pageBreak := decide ((i : ℤ) ∈ scaling.breakIndices) }

/-- Method `generateHTML(mcqs, metadata, pageCount)` (lines 177–469):
computes the scaling, then emits header, the question blocks in input
order, and the footer. Any `TypeError` raised on the way (missing
`question` field) aborts the whole document. -/
def generateHTML (k : Katex) (mcqs : List MCQ) (md : Metadata) (pageCount : ℕ) :
    Except String HTMLDoc := do
  let scaling ← calculateDynamicScaling mcqs pageCount
  let qs ← mcqs.enum.mapM (fun p => buildQuestion k scaling p.1 p.2)
  return { header := md, questions := qs, footer := endMessage }

/-! ### Helper lemmas -/

theorem div_step_le {P N a : ℕ} (hPpos : 0 < P) (hPN : P ≤ N) :
    a / P + 1 ≤ (a + N) / P := by
  rw [Nat.le_div_iff_mul_le hPpos]
  have h1 : a / P * P ≤ a := Nat.div_mul_le_self a P
  have h2 : (a / P + 1) * P = a / P * P + P := by ring
  omega

theorem breaks_strict_mono {N P k l : ℕ} (hPpos : 0 < P) (hPN : P ≤ N)
    (hkl : k < l) : N * (k + 1) / P < N * (l + 1) / P := by
  have h1 : N * (k + 1) + N ≤ N * (l + 1) := by
    have : k + 2 ≤ l + 1 := by omega
    calc N * (k + 1) + N = N * (k + 2) := by ring
    _ ≤ N * (l + 1) := Nat.mul_le_mul_left N this
  calc N * (k + 1) / P < N * (k + 1) / P + 1 := Nat.lt_succ_self _
  _ ≤ (N * (k + 1) + N) / P := div_step_le hPpos hPN
  _ ≤ N * (l + 1) / P := Nat.div_le_div_right h1

/-! ### C1: the page-break computation -/

/-- C1, counterexample: for `itemCount = 0`, `targetPageCount = 2` the
code returns the single raw index `-1` (`Math.floor(0/2) - 1`), not the
empty, clamped, de-duplicated break set the claim describes. -/
theorem breakIndicesOf_zero_not_clamped :
    breakIndicesOf 0 2 = [-1] ∧ breakIndicesOf 0 2 ≠ [] := by decide

/-- C1, amended: the loop returns exactly `P - 1` raw indices
`floor(N*k/P) - 1` with no clamping or de-duplication; `P = 1` yields an
empty list; `N = 10, P = 2` yields `[4]`; and whenever `N ≥ P` the raw
indices are already strictly increasing and each lies in `[0, N-2]`
(clamping and de-duplication would be needed only when `N < P`, where
negative and duplicate entries occur). -/
theorem breakIndicesOf_plan (N P : ℕ) :
    (breakIndicesOf N P).length = P - 1 ∧
    breakIndicesOf 10 2 = [4] ∧
    (P = 1 → breakIndicesOf N P = []) ∧
    (P ≤ N → (breakIndicesOf N P).Pairwise (· < ·) ∧
      ∀ x ∈ breakIndicesOf N P, 0 ≤ x ∧ x ≤ (N : ℤ) - 2) := by
  refine ⟨by simp [breakIndicesOf], by decide, ?_, ?_⟩
  · rintro rfl; simp [breakIndicesOf]
  · intro hPN
    rcases Nat.eq_zero_or_pos P with hP0 | hPpos
    · subst hP0; simp [breakIndicesOf]
    constructor
    · rw [breakIndicesOf, List.pairwise_map]
      refine (List.pairwise_lt_range _).imp ?_
      intro k l hkl
      have := breaks_strict_mono (N := N) hPpos hPN hkl
      omega
    · intro x hx
      rw [breakIndicesOf, List.mem_map] at hx
      obtain ⟨k, hk, rfl⟩ := hx
      rw [List.mem_range] at hk
      have hk1 : k + 1 < P := by omega
      have hlow : 1 ≤ N * (k + 1) / P := by
        rw [Nat.le_div_iff_mul_le hPpos]
        calc 1 * P = P := one_mul P
        _ ≤ N := hPN
        _ ≤ N * (k + 1) := Nat.le_mul_of_pos_right N (by omega)
      have hhigh : N * (k + 1) / P < N := by
        rw [Nat.div_lt_iff_lt_mul hPpos]
        have hN : 0 < N := lt_of_lt_of_le hPpos hPN
        exact mul_lt_mul_of_pos_left hk1 hN
      constructor <;> omega

/-- C1, witness: instantiation at `N = 10`, `P = 2`. -/
theorem breakIndicesOf_plan_witness :
    (2 : ℕ) ≤ 10 ∧ (breakIndicesOf 10 2).Pairwise (· < ·) :=
  ⟨by decide, ((breakIndicesOf_plan 10 2).2.2.2 (by decide)).1⟩

/-! ### C2: density classification -/

/-- Projection helpers for stating facts about a fallible scaling result. -/
def layoutModeOf (r : Except String Scaling) : Option LayoutMode :=
  r.toOption.map (·.layoutMode)

def optionsLayoutOf (r : Except String Scaling) : Option OptionsLayout :=
  r.toOption.map (·.optionsLayout)

def breaksOf (r : Except String Scaling) : Option (List ℤ) :=
  r.toOption.map (·.breakIndices)

/-- Forty-five MCQs of 20 characters each (average weight 20, no options). -/
def mcqs45short : List MCQ :=
  List.replicate 45 ⟨some (String.mk (List.replicate 20 'q')), {}⟩

/-- Forty-five MCQs of 80 characters each (average weight 80, no options). -/
def mcqs45long : List MCQ :=
  List.replicate 45 ⟨some (String.mk (List.replicate 80 'q')), {}⟩

/-- C2, counterexample: for 45 items and `targetPageCount = 2` the code
selects the `normal` tier (`45 ≤ 30 * 2`), not `compact` as the claim's
scenario states. -/
theorem classify_45_2_normal_not_compact :
    layoutModeOf (calculateDynamicScaling mcqs45short 2) = some .normal ∧
    LayoutMode.normal ≠ .compact := by decide

theorem densityFactor_nonneg (P : ℕ) :
    (0 : ℚ) ≤ max (1 / 2) (1 - ((P : ℚ) - 2) * (1 / 10)) :=
  le_trans (by norm_num) (le_max_left _ _)

/-- C2, amended: the classifier picks the first tier whose threshold
(15, 30, 50 items per page, scaled by `pageCount`) is at least
`itemCount`, and `ultra-compact` beyond `50 * pageCount`; for 45 items at
`targetPageCount = 2` this is the `normal` tier with the stacked
(`vertical`) arrangement regardless of average weight (20 or 80
characters), since the verbosity override exists only inside the compact
tier (`30 * P < N ≤ 50 * P`, cutoff: average weight above 50); the
planner's single break for `mcqs45short` sits at index 21. -/
theorem classify_tier_selection :
    (∀ N C P : ℕ,
      ((scalingOf N C P).layoutMode = .sparse ↔ N ≤ 15 * P) ∧
      ((scalingOf N C P).layoutMode = .normal ↔ 15 * P < N ∧ N ≤ 30 * P) ∧
      ((scalingOf N C P).layoutMode = .compact ↔ 30 * P < N ∧ N ≤ 50 * P) ∧
      ((scalingOf N C P).layoutMode = .ultraCompact ↔ 50 * P < N)) ∧
    layoutModeOf (calculateDynamicScaling mcqs45short 2) = some .normal ∧
    optionsLayoutOf (calculateDynamicScaling mcqs45short 2) = some .vertical ∧
    layoutModeOf (calculateDynamicScaling mcqs45long 2) = some .normal ∧
    optionsLayoutOf (calculateDynamicScaling mcqs45long 2) = some .vertical ∧
    breaksOf (calculateDynamicScaling mcqs45short 2) = some [21] ∧
    (∀ N C P : ℕ, 30 * P < N → N ≤ 50 * P →
      ((scalingOf N C P).optionsLayout = .vertical ↔ 50 * N < C)) := by
  refine ⟨?_, by decide, by decide, by decide, by decide, by decide, ?_⟩
  · intro N C P
    simp only [scalingOf]
    split_ifs with h1 h2 h3 <;>
      refine ⟨?_, ?_, ?_, ?_⟩ <;> simp <;> omega
  · intro N C P hlo hhi
    simp only [scalingOf]
    rw [if_neg (by omega), if_neg (by omega), if_pos hhi]
    by_cases hc : 50 * N < C
    · rw [if_pos hc]; simp [hc]
    · rw [if_neg hc]; simp [hc]

/-- C2, witness: the verbosity override inside the compact tier at
`N = 70`, `C = 3501`, `P = 2`. -/
theorem classify_tier_selection_witness :
    (30 * 2 < 70 ∧ 70 ≤ 50 * 2) ∧
      ((scalingOf 70 3501 2).optionsLayout = .vertical ↔ 50 * 70 < 3501) :=
  ⟨by decide, classify_tier_selection.2.2.2.2.2.2 70 3501 2 (by decide) (by decide)⟩

/-! ### C8: tier parameters are monotone in density level -/

/-- C8: for a fixed `pageCount`, whenever one classification outcome has a
density level at least that of another, its fontSize, spacing and
lineHeight are no larger. -/
theorem scaling_density_monotone (N1 C1 N2 C2 P : ℕ)
    (hidx : (scalingOf N1 C1 P).layoutMode.densityIdx ≤
      (scalingOf N2 C2 P).layoutMode.densityIdx) :
    (scalingOf N2 C2 P).fontSize ≤ (scalingOf N1 C1 P).fontSize ∧
    (scalingOf N2 C2 P).spacing ≤ (scalingOf N1 C1 P).spacing ∧
    (scalingOf N2 C2 P).lineHeight ≤ (scalingOf N1 C1 P).lineHeight := by
  have hd := densityFactor_nonneg P
  simp only [scalingOf] at hidx ⊢
  split_ifs at hidx ⊢ <;>
    simp only [LayoutMode.densityIdx] at hidx <;>
    first
      | exact ⟨le_refl _, le_refl _, le_refl _⟩
      | exact absurd hidx (by decide)
      | exact ⟨min_le_min (by norm_num) (by linarith),
          max_le_max (by norm_num) (mul_le_mul_of_nonneg_right (by norm_num) hd),
          by norm_num⟩

/-- C8, witness: sparse versus compact at `P = 2`. -/
theorem scaling_density_monotone_witness :
    ((scalingOf 10 0 2).layoutMode.densityIdx ≤
      (scalingOf 70 0 2).layoutMode.densityIdx) ∧
    (scalingOf 70 0 2).fontSize ≤ (scalingOf 10 0 2).fontSize :=
  ⟨by decide, (scaling_density_monotone 10 0 70 0 2 (by decide)).1⟩

/-! ### C5: the content-metrics weight -/

/-- The per-item weight the reduce actually accumulates: question length
plus lengths of present options among A–D (label E never contributes). -/
def weightABCD (m : MCQ) : ℕ :=
  (m.question.getD "").length + optLen m.options.A + optLen m.options.B +
    optLen m.options.C + optLen m.options.D

theorem foldlM_charStep_ok :
    ∀ (mcqs : List MCQ), (∀ m ∈ mcqs, m.question.isSome) → ∀ acc : ℕ,
      mcqs.foldlM charStep acc = .ok (acc + (mcqs.map weightABCD).sum) := by
  intro mcqs
  induction mcqs with
  | nil => intro _ acc; rfl
  | cons m t ih =>
    intro h acc
    have hm : m.question.isSome := h m (List.mem_cons_self m t)
    obtain ⟨q, hq⟩ := Option.isSome_iff_exists.1 hm
    have ht : ∀ x ∈ t, x.question.isSome := fun x hx => h x (List.mem_cons_of_mem m hx)
    have hstep : charStep acc m = .ok (acc + weightABCD m) := by
      simp [charStep, weightABCD, hq, Nat.add_assoc]
    rw [List.foldlM_cons, hstep]
    show t.foldlM charStep (acc + weightABCD m) = _
    rw [ih ht]
    simp [Nat.add_assoc]

theorem foldlM_charStep_error :
    ∀ (mcqs : List MCQ), (∃ m ∈ mcqs, m.question = none) → ∀ acc : ℕ,
      mcqs.foldlM charStep acc =
        .error "TypeError: Cannot read properties of undefined (reading length)" := by
  intro mcqs
  induction mcqs with
  | nil => rintro ⟨m, hm, _⟩; simp at hm
  | cons m t ih =>
    rintro ⟨x, hx, hnone⟩ acc
    rw [List.foldlM_cons]
    rcases List.mem_cons.1 hx with rfl | hxt
    · rw [show charStep acc x = .error
        "TypeError: Cannot read properties of undefined (reading length)" by
          simp [charStep, hnone]]
      rfl
    · cases hq : m.question with
      | none =>
        rw [show charStep acc m = .error
          "TypeError: Cannot read properties of undefined (reading length)" by
            simp [charStep, hq]]
        rfl
      | some q =>
        rw [show charStep acc m = .ok (acc + weightABCD m) by
          simp [charStep, weightABCD, hq, Nat.add_assoc]]
        show t.foldlM charStep (acc + weightABCD m) = _
        exact ih ⟨x, hxt, hnone⟩ _

/-- C5, counterexample: an item whose only option is `E` of length 5 gets
weight 0 (the reduce never reads label E), where the claim predicts 5; and
an item with a missing `question` makes the computation fail, where the
claim says it never fails. -/
theorem totalCharsOf_counterexample :
    (totalCharsOf [⟨some "", {E := some "hello"}⟩]).toOption = some 0 ∧
    ((0 : ℕ) ≠ ("hello" : String).length) ∧
    (totalCharsOf [⟨none, {}⟩]).toOption = none := by decide

/-- C5, amended: when every item has a `question` string the reduce
succeeds and its value is the sum over items of question length plus the
lengths of the present options among labels A–D only (an `E` option never
contributes); when some item is missing its `question` the whole
computation fails with a `TypeError` instead. -/
theorem totalCharsOf_spec (mcqs : List MCQ) :
    ((∀ m ∈ mcqs, m.question.isSome) →
      totalCharsOf mcqs = .ok ((mcqs.map weightABCD).sum)) ∧
    ((∃ m ∈ mcqs, m.question = none) →
      totalCharsOf mcqs =
        .error "TypeError: Cannot read properties of undefined (reading length)") := by
  constructor
  · intro h
    have := foldlM_charStep_ok mcqs h 0
    simpa [totalCharsOf] using this
  · intro h
    exact foldlM_charStep_error mcqs h 0

/-- C5, witness: two concrete items with A/B options. -/
theorem totalCharsOf_spec_witness :
    (∀ m ∈ ([⟨some "ab", {A := some "x"}⟩, ⟨some "c", {B := some "yz"}⟩] : List MCQ),
      m.question.isSome) ∧
    totalCharsOf [⟨some "ab", {A := some "x"}⟩, ⟨some "c", {B := some "yz"}⟩] = .ok 6 :=
  ⟨by decide, by
    rw [(totalCharsOf_spec _).1 (by decide)]
    rfl⟩

/-! ### Document assembly: shared characterization -/

/-- Sample collaborator for concrete instances: renders every span,
wrapping the trimmed latex in angle brackets. -/
def okKatex : Katex := ⟨fun l _ => .ok ('<' :: l ++ ['>'])⟩

/-- Sample collaborator that reports a syntax error for every span. -/
def errKatex : Katex := ⟨fun _ _ => .error "KaTeX parse error"⟩

/-- Sample metadata for concrete instances. -/
def sampleMeta : Metadata := ⟨"Math", "Ms. K", "50", "25", "X"⟩

/-- The question block the loop body emits for item `m` at index `i`
when `m.question` is present. -/
def expectedBlock (k : Katex) (bi : List ℤ) (i : ℕ) (m : MCQ) : QuestionBlock :=
  { number := i + 1
    text := processLatexForHTML k (stripLeadingNumber (m.question.getD "").data)
    options := ['A', 'B', 'C', 'D'].filterMap
      (fun key => match getOpt m.options key with
        | some v =>
          if v = "" then none
          else some (key, processLatexForHTML k v.data)
        | none => none)
    pageBreak := decide ((i : ℤ) ∈ bi) }

theorem scalingOf_breakIndices (N C P : ℕ) :
    (scalingOf N C P).breakIndices = breakIndicesOf N P := by
  simp only [scalingOf]
  split_ifs <;> rfl

theorem buildQuestion_some (k : Katex) (s : Scaling) (i : ℕ) (m : MCQ)
    (q : String) (hq : m.question = some q) :
    buildQuestion k s i m = .ok (expectedBlock k s.breakIndices i m) := by
  simp [buildQuestion, expectedBlock, hq]

theorem mapM_buildQuestion_ok (k : Katex) (s : Scaling) :
    ∀ l : List (ℕ × MCQ), (∀ p ∈ l, p.2.question.isSome) →
      l.mapM (fun p => buildQuestion k s p.1 p.2) =
        .ok (l.map (fun p => expectedBlock k s.breakIndices p.1 p.2)) := by
  intro l
  induction l with
  | nil => intro _; rfl
  | cons p t ih =>
    intro h
    obtain ⟨q, hq⟩ := Option.isSome_iff_exists.1 (h p (List.mem_cons_self p t))
    rw [List.mapM_cons, buildQuestion_some k s p.1 p.2 q hq,
      ih (fun x hx => h x (List.mem_cons_of_mem p hx))]
    rfl

/-- Construction form: when every item has a `question` string,
`generateHTML` succeeds and emits exactly the header, the expected blocks
in input order, and the footer. -/
theorem generateHTML_eq (k : Katex) (mcqs : List MCQ) (md : Metadata) (P : ℕ)
    (h : ∀ m ∈ mcqs, m.question.isSome) :
    generateHTML k mcqs md P = .ok
      { header := md
        questions := mcqs.enum.map
          (fun p => expectedBlock k (breakIndicesOf mcqs.length P) p.1 p.2)
        footer := endMessage } := by
  have htc : totalCharsOf mcqs = .ok ((mcqs.map weightABCD).sum) := by
    have := foldlM_charStep_ok mcqs h 0
    simpa [totalCharsOf] using this
  have henum : ∀ p ∈ mcqs.enum, p.2.question.isSome := by
    rw [List.forall_mem_enum]
    intro i hi
    exact h _ (List.getElem_mem hi)
  unfold generateHTML calculateDynamicScaling
  rw [htc]
  simp only [Except.map, Bind.bind, Except.bind]
  rw [mapM_buildQuestion_ok _ _ _ henum, scalingOf_breakIndices]
  rfl

theorem mapM_buildQuestion_inv (k : Katex) (s : Scaling) :
    ∀ (l : List (ℕ × MCQ)) (qs : List QuestionBlock),
      l.mapM (fun p => buildQuestion k s p.1 p.2) = .ok qs →
      qs = l.map (fun p => expectedBlock k s.breakIndices p.1 p.2) := by
  intro l
  induction l with
  | nil =>
    intro qs h
    simp only [List.mapM_nil] at h
    injection h with h'
    simp [h'.symm]
  | cons p t ih =>
    intro qs h
    rw [List.mapM_cons] at h
    cases hq : p.2.question with
    | none =>
      rw [show buildQuestion k s p.1 p.2 = .error
          "TypeError: Cannot read properties of undefined (reading replace)" by
        simp [buildQuestion, hq]] at h
      simp [Bind.bind, Except.bind] at h
    | some q =>
      rw [buildQuestion_some k s p.1 p.2 q hq] at h
      simp only [Bind.bind, Except.bind] at h
      cases hts : t.mapM (fun p => buildQuestion k s p.1 p.2) with
      | error e => rw [hts] at h; simp at h
      | ok bs =>
        rw [hts] at h
        injection h with h'
        rw [List.map_cons, ← ih bs hts, h'.symm]

theorem calculateDynamicScaling_inv (mcqs : List MCQ) (P : ℕ) (s : Scaling)
    (h : calculateDynamicScaling mcqs P = .ok s) :
    ∃ W, totalCharsOf mcqs = .ok W ∧ s = scalingOf mcqs.length W P := by
  unfold calculateDynamicScaling at h
  cases htc : totalCharsOf mcqs with
  | error e => rw [htc] at h; simp [Except.map] at h
  | ok W =>
    rw [htc] at h
    simp only [Except.map] at h
    injection h with h'
    exact ⟨W, rfl, h'.symm⟩

/-- Inversion form: whenever `generateHTML` succeeds, the document is the
header, the expected blocks in input order, and the footer. -/
theorem generateHTML_inv (k : Katex) (mcqs : List MCQ) (md : Metadata) (P : ℕ)
    (doc : HTMLDoc) (h : generateHTML k mcqs md P = .ok doc) :
    doc = { header := md
            questions := mcqs.enum.map
              (fun p => expectedBlock k (breakIndicesOf mcqs.length P) p.1 p.2)
            footer := endMessage } := by
  unfold generateHTML at h
  cases hc : calculateDynamicScaling mcqs P with
  | error e => rw [hc] at h; simp [Bind.bind, Except.bind] at h
  | ok s =>
    rw [hc] at h
    simp only [Bind.bind, Except.bind] at h
    cases hm : mcqs.enum.mapM (fun p => buildQuestion k s p.1 p.2) with
    | error e => rw [hm] at h; simp at h
    | ok qs =>
      rw [hm] at h
      injection h with h'
      obtain ⟨W, _, hs⟩ := calculateDynamicScaling_inv mcqs P s hc
      rw [← h', mapM_buildQuestion_inv k s mcqs.enum qs hm, hs,
        scalingOf_breakIndices]

/-! ### C3: totality of document assembly -/

/-- C3, counterexample: a list whose second item is missing `text` makes
the whole assembly raise a `TypeError` — the first, well-formed item is
not rendered either, so one bad item does abort the rest. -/
theorem generateHTML_missing_text_aborts :
    (generateHTML okKatex [⟨some "Q1", {A := some "x"}⟩, ⟨none, {}⟩] sampleMeta 2).toOption
      = none := by decide

/-- C3, amended: assembly never fails only on item lists in which every
item has a `question` string (possibly empty); it then emits one block per
item. An item with a missing/null `question` raises a `TypeError` that
aborts the whole document instead of being replaced by an empty string. -/
theorem generateHTML_total_of_present (k : Katex) (mcqs : List MCQ) (md : Metadata)
    (P : ℕ) (h : ∀ m ∈ mcqs, m.question.isSome) :
    (generateHTML k mcqs md P).toOption.map (fun d => d.questions.length) =
      some mcqs.length := by
  rw [generateHTML_eq k mcqs md P h]
  simp [Except.toOption]

/-- C3, witness: a one-item list with a present question. -/
theorem generateHTML_total_of_present_witness :
    (∀ m ∈ ([⟨some "Q1", {A := some "x"}⟩] : List MCQ), m.question.isSome) ∧
    (generateHTML okKatex [⟨some "Q1", {A := some "x"}⟩] sampleMeta 2).toOption.map
      (fun d => d.questions.length) = some 1 :=
  ⟨by decide, generateHTML_total_of_present okKatex _ sampleMeta 2 (by decide)⟩

/-! ### C4: the empty item list -/

/-- C4: for zero items and any `pageCount`, the classifier returns the
sparse tier without failing (the NaN average is never consulted in the
sparse branch), and the assembled document is exactly header plus footer
with zero question blocks and no error. -/
theorem generateHTML_empty_ok (k : Katex) (md : Metadata) (P : ℕ) :
    layoutModeOf (calculateDynamicScaling [] P) = some .sparse ∧
    generateHTML k [] md P =
      .ok { header := md, questions := [], footer := endMessage } := by
  constructor
  · have h0 : totalCharsOf ([] : List MCQ) = .ok 0 := rfl
    simp [layoutModeOf, calculateDynamicScaling, h0, scalingOf, Except.toOption,
      Except.map]
  · have := generateHTML_eq k [] md P (by intro m hm; simp at hm)
    simpa using this

/-! ### Scanner step lemmas -/

theorem scanDisplay_skip (k : Katex) (c : Char) (rest : List Char)
    (h1 : ¬(c = '\\' ∧ rest.head? = some '[')) (h2 : ¬(c = '$' ∧ rest.head? = some '$')) :
    scanDisplay k (c :: rest) = c :: scanDisplay k rest := by
  show scanDisplayF k (rest.length + 1) (c :: rest) = _
  simp only [scanDisplayF]
  rw [if_neg h1, if_neg h2]
  rfl

/-- On text containing neither a dollar nor an opening bracket character
the display pass is the identity. -/
theorem scanDisplay_clean (k : Katex) :
    ∀ l : List Char, (∀ c ∈ l, c ≠ '$' ∧ c ≠ '[') → scanDisplay k l = l := by
  intro l
  induction l with
  | nil => intro _; rfl
  | cons c rest ih =>
    intro h
    have h1 : ¬(c = '\\' ∧ rest.head? = some '[') := by
      rintro ⟨_, hh⟩
      cases rest with
      | nil => simp at hh
      | cons d t =>
        simp only [List.head?_cons, Option.some.injEq] at hh
        exact (h d (List.mem_cons_of_mem c (List.mem_cons_self d t))).2 hh
    have h2 : ¬(c = '$' ∧ rest.head? = some '$') := by
      rintro ⟨hc, _⟩
      exact (h c (List.mem_cons_self c rest)).1 hc
    rw [scanDisplay_skip k c rest h1 h2,
      ih (fun x hx => h x (List.mem_cons_of_mem c hx))]

theorem scanInline_skip (k : Katex) (c : Char) (rest : List Char)
    (h1 : ¬(c = '\\' ∧ rest.head? = some '(')) (h2 : ¬ c = '$') :
    scanInline k (c :: rest) = c :: scanInline k rest := by
  show scanInlineF k (rest.length + 1) (c :: rest) = _
  simp only [scanInlineF]
  rw [if_neg h1, if_neg h2]
  rfl

/-- A dollar-free, backslash-free prefix passes through the inline pass
unchanged, and scanning resumes on the remainder. -/
theorem scanInline_clean_append (k : Katex) :
    ∀ p rest : List Char, (∀ c ∈ p, c ≠ '$' ∧ c ≠ '\\') →
      scanInline k (p ++ rest) = p ++ scanInline k rest := by
  intro p
  induction p with
  | nil => intro rest _; rfl
  | cons c t ih =>
    intro rest h
    have hc := h c (List.mem_cons_self c t)
    rw [List.cons_append,
      scanInline_skip k c (t ++ rest) (fun hx => hc.2 hx.1) hc.1,
      ih rest (fun x hx => h x (List.mem_cons_of_mem c hx))]
    rfl

theorem scanInline_clean (k : Katex) (l : List Char)
    (h : ∀ c ∈ l, c ≠ '$' ∧ c ≠ '\\') : scanInline k l = l := by
  have := scanInline_clean_append k l [] h
  simpa [show scanInline k ([] : List Char) = [] from rfl] using this

/-- One-step unfolding of the inline scanner at positive fuel. -/
theorem scanInlineF_succ_cons (k : Katex) (fuel : ℕ) (c : Char) (rest : List Char) :
    scanInlineF k (fuel + 1) (c :: rest) =
      (if c = '\\' ∧ rest.head? = some '(' then
        match splitOnSeq ['\\', ')'] rest.tail with
        | some (body, after) =>
          spanOutFirstAlt k false ['\\', '('] body ['\\', ')'] ++ scanInlineF k fuel after
        | none => c :: scanInlineF k fuel rest
      else if c = '$' then
        match splitOnSeq ['$'] rest with
        | some (body, after) =>
          if body = [] then c :: scanInlineF k fuel rest
          else spanOut k false ['$'] body ['$'] ++ scanInlineF k fuel after
        | none => c :: scanInlineF k fuel rest
      else c :: scanInlineF k fuel rest) := rfl

/-- At a paren-style inline span whose body is backslash-free, the inline
pass emits the span's replacement and resumes after the closing
delimiter. -/
theorem scanInline_span (k : Katex) (body after : List Char) (hb : '\\' ∉ body) :
    scanInline k ('\\' :: '(' :: (body ++ ['\\', ')'] ++ after)) =
      spanOutFirstAlt k false ['\\', '('] body ['\\', ')'] ++ scanInline k after := by
  have hM : (body ++ ['\\', ')'] ++ after).length = body.length + 2 + after.length := by
    simp only [List.length_append, List.length_cons, List.length_nil]
  show scanInlineF k (((body ++ ['\\', ')'] ++ after).length + 1) + 1)
      ('\\' :: '(' :: (body ++ ['\\', ')'] ++ after)) = _
  rw [scanInlineF_succ_cons]
  rw [if_pos (⟨rfl, rfl⟩ : ('\\' : Char) = '\\' ∧
    (('(' : Char) :: (body ++ ['\\', ')'] ++ after)).head? = some '(')]
  simp only [List.tail_cons]
  rw [splitOnSeq_boundary '\\' [')'] body after hb]
  dsimp only
  exact congrArg (spanOutFirstAlt k false ['\\', '('] body ['\\', ')'] ++ ·)
    (scanInlineF_mono k _ _ after (by omega) (le_refl _))

/-! ### C6: ordering, numbering and prefix trim -/

/-- The prefix removed by `stripLeadingNumber` consists only of
whitespace, digits and a dot, and the remainder is a suffix of the
original text, so numerals appearing later are untouched. -/
theorem stripLeadingNumber_prefix (s : List Char) :
    ∃ pre, pre ++ stripLeadingNumber s = s ∧
      ∀ c ∈ pre, c.isWhitespace ∨ c.isDigit ∨ c = '.' := by
  simp only [stripLeadingNumber]
  by_cases hd : (((s.dropWhile Char.isWhitespace).head?.map Char.isDigit).getD false) = true
  · rw [if_pos hd]
    by_cases hdot :
        ((s.dropWhile Char.isWhitespace).dropWhile Char.isDigit).head? = some '.'
    · rw [if_pos hdot]
      set s2 := (s.dropWhile Char.isWhitespace).dropWhile Char.isDigit with hs2
      obtain ⟨t, ht⟩ : ∃ t, s2 = '.' :: t := by
        cases hc : s2 with
        | nil => rw [hc] at hdot; simp at hdot
        | cons c t =>
          rw [hc] at hdot
          simp only [List.head?_cons, Option.some.injEq] at hdot
          exact ⟨t, by rw [hdot]⟩
      refine ⟨s.takeWhile Char.isWhitespace ++
        ((s.dropWhile Char.isWhitespace).takeWhile Char.isDigit ++
          ('.' :: t.takeWhile Char.isWhitespace)), ?_, ?_⟩
      · rw [ht]
        simp only [List.append_assoc, List.cons_append, List.tail_cons]
        rw [List.takeWhile_append_dropWhile]
        have : ('.' : Char) :: t = s2 := ht.symm
        rw [this, hs2, List.takeWhile_append_dropWhile,
          List.takeWhile_append_dropWhile]
      · intro c hc
        rcases List.mem_append.1 hc with h1 | h2
        · exact Or.inl (List.mem_takeWhile_imp h1)
        rcases List.mem_append.1 h2 with h3 | h4
        · exact Or.inr (Or.inl (List.mem_takeWhile_imp h3))
        rcases List.mem_cons.1 h4 with rfl | h5
        · exact Or.inr (Or.inr rfl)
        · exact Or.inl (List.mem_takeWhile_imp h5)
    · rw [if_neg hdot]
      refine ⟨s.takeWhile Char.isWhitespace ++
        ((s.dropWhile Char.isWhitespace).takeWhile Char.isDigit ++
          ((s.dropWhile Char.isWhitespace).dropWhile Char.isDigit).takeWhile
            Char.isWhitespace), ?_, ?_⟩
      · simp only [List.append_assoc]
        rw [List.takeWhile_append_dropWhile, List.takeWhile_append_dropWhile,
          List.takeWhile_append_dropWhile]
      · intro c hc
        rcases List.mem_append.1 hc with h1 | h2
        · exact Or.inl (List.mem_takeWhile_imp h1)
        rcases List.mem_append.1 h2 with h3 | h4
        · exact Or.inr (Or.inl (List.mem_takeWhile_imp h3))
        · exact Or.inl (List.mem_takeWhile_imp h4)
  · rw [if_neg hd]
    exact ⟨[], by simp, by simp⟩

theorem questions_map_number (k : Katex) (bi : List ℤ) (l : List MCQ) :
    (l.enum.map (fun p => expectedBlock k bi p.1 p.2)).map (fun q => q.number) =
      (List.range l.length).map (· + 1) := by
  rw [← List.enum_map_fst l, List.map_map, List.map_map]
  rfl

theorem questions_map_text (k : Katex) (bi : List ℤ) (l : List MCQ) :
    (l.enum.map (fun p => expectedBlock k bi p.1 p.2)).map (fun q => q.text) =
      l.map (fun m =>
        processLatexForHTML k (stripLeadingNumber (m.question.getD "").data)) := by
  rw [show l.map (fun m =>
      processLatexForHTML k (stripLeadingNumber (m.question.getD "").data)) =
      (l.enum.map Prod.snd).map (fun m =>
        processLatexForHTML k (stripLeadingNumber (m.question.getD "").data)) by
    rw [List.enum_map_snd]]
  rw [List.map_map, List.map_map]
  rfl

/-- C6: question blocks appear in input order, the block at index `i`
carries number `i + 1`, the rendered text is the source text with exactly
the anchored leading-numeral run (whitespace, digits, optional dot,
whitespace) removed before math processing — later numerals untouched —
and the first item with text `"5. What is \( x^2 \)?"` renders as question
1 with the leading `5.` gone and the span typeset. -/
theorem generateHTML_numbering (k : Katex) (mcqs : List MCQ) (md : Metadata)
    (P : ℕ) (h : ∀ m ∈ mcqs, m.question.isSome) :
    ((generateHTML k mcqs md P).toOption.map (fun d => d.questions.map (fun q => q.number)) =
      some ((List.range mcqs.length).map (· + 1))) ∧
    ((generateHTML k mcqs md P).toOption.map (fun d => d.questions.map (fun q => q.text)) =
      some (mcqs.map (fun m =>
        processLatexForHTML k (stripLeadingNumber (m.question.getD "").data)))) ∧
    (∀ s : List Char, ∃ pre, pre ++ stripLeadingNumber s = s ∧
      ∀ c ∈ pre, c.isWhitespace ∨ c.isDigit ∨ c = '.') ∧
    ((generateHTML okKatex [⟨some "5. What is \\( x^2 \\)?", {}⟩] sampleMeta 2).toOption.map
        (fun d => d.questions.map (fun q => (q.number, String.mk q.text))) =
      some [(1, "What is <x^2>?")]) := by
  refine ⟨?_, ?_, stripLeadingNumber_prefix, by decide⟩
  · rw [generateHTML_eq k mcqs md P h]
    exact congrArg some (questions_map_number k (breakIndicesOf mcqs.length P) mcqs)
  · rw [generateHTML_eq k mcqs md P h]
    exact congrArg some (questions_map_text k (breakIndicesOf mcqs.length P) mcqs)

/-- C6, witness: a one-item list whose text begins with `7)`. -/
theorem generateHTML_numbering_witness :
    (∀ m ∈ ([⟨some "7) Q", {}⟩] : List MCQ), m.question.isSome) ∧
    (generateHTML okKatex [⟨some "7) Q", {}⟩] sampleMeta 2).toOption.map
      (fun d => d.questions.map (fun q => q.number)) = some [1] :=
  ⟨by decide, by
    have := (generateHTML_numbering okKatex [⟨some "7) Q", {}⟩] sampleMeta 2
      (by decide)).1
    simpa using this⟩

/-! ### C9: option rendering is restricted to labels A–D -/

/-- C9, counterexample: an item carrying options A and E renders only the
A line — the present E option is silently dropped — and an item whose only
option is A with the empty-string value renders no option line at all,
because the loop's JS-truthiness guard skips it. -/
theorem generateHTML_drops_present_options :
    ((generateHTML okKatex [⟨some "Q", {A := some "a", E := some "e"}⟩]
        sampleMeta 2).toOption.map
      (fun d => d.questions.map (fun q => q.options.map Prod.fst)) = some [['A']] ∧
    ({A := some "a", E := some "e"} : MCQOptions).E.isSome = true) ∧
    ((generateHTML okKatex [⟨some "Q", {A := some ""}⟩] sampleMeta 2).toOption.map
      (fun d => d.questions.map (fun q => q.options.map Prod.fst)) = some [[]] ∧
    ({A := some ""} : MCQOptions).A.isSome = true) := by decide

/-- C9, amended: in every successfully assembled document, each option
present on an item under labels A–D with a nonempty value appears in that
item's rendered option block, and every rendered option line comes from a
nonempty present option under one of the labels A–D — so an `E` option
never appears, and neither does a present option whose value is the empty
string (the loop's truthiness guard skips it). -/
theorem generateHTML_options_ABCD (k : Katex) (mcqs : List MCQ) (md : Metadata)
    (P : ℕ) (doc : HTMLDoc) (hdoc : generateHTML k mcqs md P = .ok doc) :
    ∀ i (hi : i < doc.questions.length) (hm : i < mcqs.length),
      (∀ key v, key ∈ (['A', 'B', 'C', 'D'] : List Char) →
        getOpt (mcqs.get ⟨i, hm⟩).options key = some v → v ≠ "" →
          (key, processLatexForHTML k v.data) ∈ (doc.questions.get ⟨i, hi⟩).options) ∧
      (∀ kv ∈ (doc.questions.get ⟨i, hi⟩).options,
        kv.1 ∈ (['A', 'B', 'C', 'D'] : List Char) ∧
        ∃ v, getOpt (mcqs.get ⟨i, hm⟩).options kv.1 = some v ∧ v ≠ "" ∧
          kv.2 = processLatexForHTML k v.data) := by
  have hq := generateHTML_inv k mcqs md P doc hdoc
  subst hq
  intro i hi hm
  simp only [List.get_eq_getElem, List.getElem_map, List.getElem_enum] at hi ⊢
  constructor
  · intro key v hkey hv hvne
    apply List.mem_filterMap.2
    exact ⟨key, hkey, by rw [hv]; simp [hvne]⟩
  · intro kv hkv
    obtain ⟨key, hkey, hfk⟩ := List.mem_filterMap.1 hkv
    cases hgo : getOpt (mcqs.get ⟨i, hm⟩).options key with
    | none =>
      rw [List.get_eq_getElem] at hgo
      rw [hgo] at hfk
      simp at hfk
    | some v =>
      rw [List.get_eq_getElem] at hgo
      rw [hgo] at hfk
      by_cases hvv : v = ""
      · rw [hvv] at hfk
        simp at hfk
      · dsimp only at hfk
        rw [if_neg hvv] at hfk
        injection hfk with h2
        obtain rfl := h2.symm
        exact ⟨hkey, v, hgo, hvv, rfl⟩

/-- Concrete document used by the C9 witness. -/
def demoDocA : HTMLDoc :=
  (generateHTML okKatex [⟨some "Q", {A := some "a"}⟩] sampleMeta 2).toOption.getD
    ⟨sampleMeta, [], endMessage⟩

/-- C9, witness: the nonempty present A option of a one-item list appears
in the rendered block. -/
theorem generateHTML_options_ABCD_witness :
    (generateHTML okKatex [⟨some "Q", {A := some "a"}⟩] sampleMeta 2 = .ok demoDocA) ∧
    (('A', processLatexForHTML okKatex "a".data) ∈
      (demoDocA.questions.get ⟨0, by decide⟩).options) :=
  ⟨by rfl,
    ((generateHTML_options_ABCD okKatex [⟨some "Q", {A := some "a"}⟩] sampleMeta 2
        demoDocA (by rfl)) 0 (by decide) (by decide)).1 'A' "a"
      (by decide) (by decide) (by decide)⟩

/-! ### C10: page-break markers on degenerate break plans -/

theorem countP_zip_fst {α : Type} (g : ℕ → Bool) :
    ∀ (ns : List ℕ) (xs : List α), ns.length = xs.length →
      List.countP (fun p : ℕ × α => g p.1) (ns.zip xs) = List.countP g ns := by
  intro ns
  induction ns with
  | nil => intro xs _; simp
  | cons n t ih =>
    intro xs h
    cases xs with
    | nil => simp at h
    | cons x xt =>
      simp only [List.zip_cons_cons, List.countP_cons, ih xt (by simpa using h)]

theorem count_breaks (bi : List ℤ) (N : ℕ) :
    List.countP (fun i : ℕ => decide ((i : ℤ) ∈ bi)) (List.range N) =
      (bi.dedup.filter (fun x => decide (0 ≤ x ∧ x ≤ (N : ℤ) - 1))).length := by
  rw [List.countP_eq_length_filter]
  have hA : (((List.range N).filter (fun i : ℕ => decide ((i : ℤ) ∈ bi))).map
      (fun i : ℕ => (i : ℤ))).length =
      ((List.range N).filter (fun i : ℕ => decide ((i : ℤ) ∈ bi))).length :=
    List.length_map _ _
  rw [← hA]
  apply List.Perm.length_eq
  apply List.perm_of_nodup_nodup_toFinset_eq
  · exact List.Nodup.map (fun a b hab => by exact_mod_cast hab)
      (List.Nodup.filter _ (List.nodup_range N))
  · exact (List.nodup_dedup bi).filter _
  · ext x
    simp only [List.mem_toFinset, List.mem_map, List.mem_filter, List.mem_range,
      List.mem_dedup, decide_eq_true_eq]
    constructor
    · rintro ⟨i, ⟨hiN, hibi⟩, rfl⟩
      exact ⟨hibi, by omega, by omega⟩
    · rintro ⟨hbi, h0, hN⟩
      refine ⟨x.toNat, ⟨by omega, ?_⟩, by omega⟩
      rw [Int.toNat_of_nonneg h0]
      exact hbi

/-- C10: a question div carries the `page-break` class iff its zero-based
index is a member of the computed break list (indices outside `[0, N-1]`,
in particular the negative ones arising when `itemCount < pageCount`,
produce no marker and no failure), and the number of marked divs equals
the number of distinct computed break indices lying in `[0, N-1]`. -/
theorem generateHTML_pageBreak_markers (k : Katex) (mcqs : List MCQ) (md : Metadata)
    (P : ℕ) (doc : HTMLDoc) (hdoc : generateHTML k mcqs md P = .ok doc) :
    (∀ i (hi : i < doc.questions.length),
      ((doc.questions.get ⟨i, hi⟩).pageBreak = true ↔
        (i : ℤ) ∈ breakIndicesOf mcqs.length P)) ∧
    doc.questions.countP (fun q => q.pageBreak) =
      ((breakIndicesOf mcqs.length P).dedup.filter
        (fun x => decide (0 ≤ x ∧ x ≤ (mcqs.length : ℤ) - 1))).length := by
  have hq := generateHTML_inv k mcqs md P doc hdoc
  subst hq
  constructor
  · intro i hi
    simp only [List.get_eq_getElem, List.getElem_map, List.getElem_enum] at hi ⊢
    exact decide_eq_true_iff
  · have h1 : (mcqs.enum.map (fun p =>
        expectedBlock k (breakIndicesOf mcqs.length P) p.1 p.2)).countP
          (fun q => q.pageBreak) =
        List.countP (fun p : ℕ × MCQ =>
          decide ((p.1 : ℤ) ∈ breakIndicesOf mcqs.length P)) mcqs.enum := by
      rw [List.countP_map]
      rfl
    rw [h1, List.enum_eq_zip_range,
      countP_zip_fst (fun i : ℕ => decide ((i : ℤ) ∈ breakIndicesOf mcqs.length P))
        (List.range mcqs.length) mcqs (by simp),
      count_breaks]

/-- Concrete document used by the C10 witness. -/
def demoDocBreaks : HTMLDoc :=
  (generateHTML okKatex
    [⟨some "a", {}⟩, ⟨some "b", {}⟩, ⟨some "c", {}⟩] sampleMeta 4).toOption.getD
    ⟨sampleMeta, [], endMessage⟩

/-! ### C7: per-span degradation of math typesetting -/

theorem forall_mem_append2 {p : Char → Prop} {l1 l2 : List Char}
    (h1 : ∀ c ∈ l1, p c) (h2 : ∀ c ∈ l2, p c) : ∀ c ∈ l1 ++ l2, p c := by
  intro c hc
  rcases List.mem_append.1 hc with h | h
  exacts [h1 c h, h2 c h]

/-- Cons-normalized form of `scanInline_span`. -/
theorem scanInline_span_cons (k : Katex) (body after : List Char) (hb : '\\' ∉ body) :
    scanInline k ('\\' :: '(' :: (body ++ '\\' :: ')' :: after)) =
      spanOutFirstAlt k false ['\\', '('] body ['\\', ')'] ++ scanInline k after := by
  have h : body ++ '\\' :: ')' :: after = body ++ ['\\', ')'] ++ after := by simp
  rw [h, scanInline_span k body after hb]

theorem spanOutFirstAlt_preserved (k : Katex) (d : Bool) (op body cl : List Char)
    (e : String) (h : k.render (jsTrim body) d = .error e) :
    spanOutFirstAlt k d op body cl = op ++ body ++ cl := by
  unfold spanOutFirstAlt spanOut
  split_ifs with hb
  · rfl
  · rw [h]

theorem spanOutFirstAlt_rendered (k : Katex) (d : Bool) (op body cl r : List Char)
    (hne : body ≠ []) (h : k.render (jsTrim body) d = .ok r) :
    spanOutFirstAlt k d op body cl = r := by
  unfold spanOutFirstAlt spanOut
  rw [if_neg hne, h]

/-- C7: in a text carrying two recognized inline math spans in otherwise
delimiter-free surroundings, when the collaborator reports a syntax error
for the first span and typesets the (nonempty) second, the output keeps
the first span's original delimited text verbatim in place while the
second span is replaced by its rendering — per-span degradation, not
whole-document failure. (An empty-bodied first span is also preserved
verbatim: the callback's `latex1 || latex2` yields `undefined` for it and
the caught TypeError keeps the match without consulting KaTeX.) -/
theorem processLatex_error_span (k : Katex)
    (p1 b1 p2 b2 p3 r2 : List Char)
    (hp1 : ∀ c ∈ p1, c ≠ '$' ∧ c ≠ '\\' ∧ c ≠ '[')
    (hp2 : ∀ c ∈ p2, c ≠ '$' ∧ c ≠ '\\' ∧ c ≠ '[')
    (hp3 : ∀ c ∈ p3, c ≠ '$' ∧ c ≠ '\\' ∧ c ≠ '[')
    (hb1 : ∀ c ∈ b1, c ≠ '$' ∧ c ≠ '\\' ∧ c ≠ '[')
    (hb2 : ∀ c ∈ b2, c ≠ '$' ∧ c ≠ '\\' ∧ c ≠ '[')
    (hb2ne : b2 ≠ [])
    (e1 : String) (herr : k.render (jsTrim b1) false = .error e1)
    (hok : k.render (jsTrim b2) false = .ok r2) :
    processLatexForHTML k
        (p1 ++ ['\\', '('] ++ b1 ++ ['\\', ')'] ++ p2 ++
          ['\\', '('] ++ b2 ++ ['\\', ')'] ++ p3) =
      p1 ++ ['\\', '('] ++ b1 ++ ['\\', ')'] ++ p2 ++ r2 ++ p3 := by
  have hdelim1 : ∀ c ∈ (['\\', '('] : List Char), c ≠ '$' ∧ c ≠ '[' := by decide
  have hdelim2 : ∀ c ∈ (['\\', ')'] : List Char), c ≠ '$' ∧ c ≠ '[' := by decide
  have hcleanT : ∀ c ∈ (p1 ++ ['\\', '('] ++ b1 ++ ['\\', ')'] ++ p2 ++
      ['\\', '('] ++ b2 ++ ['\\', ')'] ++ p3), c ≠ '$' ∧ c ≠ '[' :=
    forall_mem_append2 (forall_mem_append2 (forall_mem_append2 (forall_mem_append2
      (forall_mem_append2 (forall_mem_append2 (forall_mem_append2 (forall_mem_append2
        (fun c h => ⟨(hp1 c h).1, (hp1 c h).2.2⟩) hdelim1)
        (fun c h => ⟨(hb1 c h).1, (hb1 c h).2.2⟩)) hdelim2)
        (fun c h => ⟨(hp2 c h).1, (hp2 c h).2.2⟩)) hdelim1)
        (fun c h => ⟨(hb2 c h).1, (hb2 c h).2.2⟩)) hdelim2)
      (fun c h => ⟨(hp3 c h).1, (hp3 c h).2.2⟩)
  unfold processLatexForHTML
  rw [scanDisplay_clean k _ hcleanT]
  simp only [List.append_assoc, List.cons_append, List.nil_append]
  rw [scanInline_clean_append k p1 _ (fun c h => ⟨(hp1 c h).1, (hp1 c h).2.1⟩)]
  rw [scanInline_span_cons k b1 _ (fun h => (hb1 '\\' h).2.1 rfl)]
  rw [scanInline_clean_append k p2 _ (fun c h => ⟨(hp2 c h).1, (hp2 c h).2.1⟩)]
  rw [scanInline_span_cons k b2 _ (fun h => (hb2 '\\' h).2.1 rfl)]
  rw [scanInline_clean k p3 (fun c h => ⟨(hp3 c h).1, (hp3 c h).2.1⟩)]
  rw [spanOutFirstAlt_preserved k false ['\\', '('] b1 ['\\', ')'] e1 herr,
    spanOutFirstAlt_rendered k false ['\\', '('] b2 ['\\', ')'] r2 hb2ne hok]
  simp [List.append_assoc]

/-- Collaborator for the C7 witness: reports a parse error exactly on the
latex `x^2` and renders everything else. -/
def mixedKatex : Katex :=
  ⟨fun l _ => if l = "x^2".data then .error "KaTeX ParseError"
    else .ok ('<' :: l ++ ['>'])⟩

/-- C7, witness: the malformed first span stays verbatim, the sibling span
is typeset. -/
theorem processLatex_error_span_witness :
    String.mk (processLatexForHTML mixedKatex
      ("see ".data ++ ['\\', '('] ++ " x^2 ".data ++ ['\\', ')'] ++ ", and ".data ++
        ['\\', '('] ++ "y".data ++ ['\\', ')'] ++ " end".data)) =
      "see \\( x^2 \\), and <y> end" := by
  rw [processLatex_error_span mixedKatex "see ".data " x^2 ".data ", and ".data
    "y".data " end".data ('<' :: "y".data ++ ['>'])
    (by decide) (by decide) (by decide) (by decide) (by decide) (by decide)
    "KaTeX ParseError" (by rfl) (by rfl)]
  decide

/-- C10, witness: three items across four target pages produce break list
`[-1, 0, 1]` and exactly two markers. -/
theorem generateHTML_pageBreak_markers_witness :
    (generateHTML okKatex
      [⟨some "a", {}⟩, ⟨some "b", {}⟩, ⟨some "c", {}⟩] sampleMeta 4 =
        .ok demoDocBreaks) ∧
    demoDocBreaks.questions.countP (fun q => q.pageBreak) =
      ((breakIndicesOf 3 4).dedup.filter
        (fun x => decide (0 ≤ x ∧ x ≤ (3 : ℤ) - 1))).length :=
  ⟨by rfl,
    (generateHTML_pageBreak_markers okKatex
      [⟨some "a", {}⟩, ⟨some "b", {}⟩, ⟨some "c", {}⟩] sampleMeta 4
      demoDocBreaks (by rfl)).2⟩

end PdfService
